import Mathlib

/-!
# azure-openai-proxy: a shallow embedding of `main.go`

Go strings are modelled by Lean `String`s (the byte `/` and the other ASCII
bytes the program inspects are single characters in UTF-8, so character-level
and byte-level tests agree).  `time.Time` values are modelled by `Int`
nanosecond instants, `time.Duration` by `Int` nanoseconds.
-/

namespace Proxy

/-! ## `strings` helpers used by `main.go` -/

/-- Go `strings.HasPrefix(s, prefix)`. -/
def HasPrefix (s pre : String) : Bool := pre.data.isPrefixOf s.data

/-- Go `strings.HasSuffix(s, suffix)`. -/
def HasSuffix (s suf : String) : Bool := suf.data.isSuffixOf s.data

/-- Go slice expression `b[1:]` on a string whose first byte is a whole character. -/
def sliceFrom1 (b : String) : String := ⟨b.data.drop 1⟩

/-- Source: `func singleJoiningSlash(a, b string) string` (main.go 139-148). -/
def singleJoiningSlash (a b : String) : String :=
  if HasSuffix a "/" && HasPrefix b "/" then a ++ sliceFrom1 b
  else if HasSuffix a "/" || HasPrefix b "/" then a ++ b
  else a ++ "/" ++ b

/-! ## Token cache -/

/-- Go `time.Minute`, in nanoseconds. -/
def Minute : Int := 60 * 1000000000

/-- Go `t.Before(u)` on instants. -/
def Before (t u : Int) : Bool := decide (t < u)

/-- Go `t.Add(d)`. -/
def Add (t d : Int) : Int := t + d

/-- Source: `type cachedToken struct { val string; exp time.Time }`. -/
structure cachedToken where
  val : String
  exp : Int
deriving DecidableEq, Repr

/-- The `azcore.AccessToken` returned by the credential provider. -/
structure AccessToken where
  Token : String
  ExpiresOn : Int
deriving DecidableEq, Repr

/-- The credential provider: `cred.GetToken(ctx, policy.TokenRequestOptions{Scopes: ...})`,
as a function of the requested scopes. -/
abbrev Credential (ε : Type) := List String → Except ε AccessToken

/-- What one run of `getToken` does: the returned pair `(string, error)`, the content of
`tokenCache` afterwards, and the scopes of every provider call made, in order. -/
structure TokenOutcome (ε : Type) where
  tok : String
  err : Option ε
  cache : Option cachedToken
  credCalls : List (List String)

/-- Source: `func getToken(ctx, cred) (string, error)` (main.go 96-106).  `tokenCache` is the
stored value of the `atomic.Value` (`none` when nothing was stored, so that the type
assertion fails), `now` is the result of `time.Now()`.  The first `match` is the `if` of
main.go 97: a stored token that is more than a minute away from its expiry. -/
def getToken {ε : Type} (scope : String) (tokenCache : Option cachedToken) (now : Int)
    (cred : Credential ε) : TokenOutcome ε :=
  match tokenCache.filter (fun t => Before now (Add t.exp (-1 * Minute))) with
  | some t => { tok := t.val, err := none, cache := tokenCache, credCalls := [] }
  | none =>
    match cred [scope] with
    | .error err => { tok := "", err := some err, cache := tokenCache, credCalls := [[scope]] }
    | .ok tk =>
      { tok := tk.Token, err := none, cache := some { val := tk.Token, exp := tk.ExpiresOn },
        credCalls := [[scope]] }

/-- A run of successive `getToken` calls on the cache `tokenCache`, each given by the time
of the call and the behaviour of the provider at that call: the outcomes, in order. -/
def getTokenSeq {ε : Type} (scope : String) :
    Option cachedToken → List (Int × Credential ε) → List (TokenOutcome ε)
  | _, [] => []
  | tokenCache, call :: rest =>
    getToken scope tokenCache call.1 call.2
      :: getTokenSeq scope (getToken scope tokenCache call.1 call.2).cache rest

/-- The content of the cache after a run of successive `getToken` calls. -/
def cacheAfter {ε : Type} (scope : String) :
    Option cachedToken → List (Int × Credential ε) → Option cachedToken
  | tokenCache, [] => tokenCache
  | tokenCache, call :: rest =>
    cacheAfter scope (getToken scope tokenCache call.1 call.2).cache rest

/-! ## `net/textproto`, `strings.EqualFold` and `http.Header` -/

/-- Go `textproto.validHeaderFieldByte`: the RFC 7230 token bytes (39 is the apostrophe,
96 the backquote).  A character outside ASCII has only bytes above 127, none of them valid. -/
def validHeaderFieldByte (c : Char) : Bool :=
  c.isAlphanum || "!#$%&*+-.^_|~".data.contains c || c.toNat == 39 || c.toNat == 96

/-- One step of the canonicalising loop of Go `textproto.canonicalMIMEHeaderKey`: a lower
case letter is raised when `upper` is set, an upper case letter lowered when it is not. -/
def canonStep (upper : Bool) (c : Char) : Char :=
  if upper && c.isLower then c.toUpper
  else if !upper && c.isUpper then c.toLower else c

/-- The canonicalising loop of Go `textproto.canonicalMIMEHeaderKey`: upper case for the
first letter and after each `-`, lower case elsewhere. -/
def canonLoop : Bool → List Char → List Char
  | _, [] => []
  | upper, c :: cs => canonStep upper c :: canonLoop (canonStep upper c == '-') cs

/-- Go `textproto.CanonicalMIMEHeaderKey`: a key holding a byte that is not a token byte
(a space included) is returned unchanged, any other key is canonicalised. -/
def CanonicalMIMEHeaderKey (s : String) : String :=
  if s.data.all validHeaderFieldByte then ⟨canonLoop true s.data⟩ else s

/-- Representative of the `unicode.SimpleFold` orbit of a rune, for the orbits that hold an
ASCII letter: the two cases of the letter, plus U+212A (Kelvin sign) with `k` and U+017F
(long s) with `s`.  Any other rune stands for itself. -/
def foldClass (c : Char) : Char :=
  if c.toNat == 0x212A then 'k' else if c.toNat == 0x17F then 's' else c.toLower

/-- Rune-by-rune comparison of Go `strings.EqualFold`. -/
def equalFoldRunes : List Char → List Char → Bool
  | [], [] => true
  | sr :: s, tr :: t => (foldClass sr == foldClass tr) && equalFoldRunes s t
  | _, _ => false

/-- Go `strings.EqualFold(s, t)`: equality under simple Unicode case folding.  Exact
whenever one of the two strings is ASCII, as the literal is at every call in `main.go`. -/
def EqualFold (s t : String) : Bool := equalFoldRunes s.data t.data

/-- Go `http.Header`, a `map[string][]string`: the entries of the map, in the order in
which a `range` loop visits them. -/
abbrev Header := List (String × List String)

namespace Header

/-- The keys of the map. -/
def keys (h : Header) : List String := h.map Prod.fst

/-- Go `h[key]`: the value list stored under exactly this key (nil when absent). -/
def values (h : Header) (key : String) : List String := (h.lookup key).getD []

/-- Go map assignment `h[key] = vs`. -/
def put (h : Header) (key : String) (vs : List String) : Header :=
  if h.any (fun e => e.1 == key) then h.map (fun e => if e.1 == key then (key, vs) else e)
  else h ++ [(key, vs)]

/-- Go `h.Get(key)`: first value under the canonicalised key, `""` when there is none. -/
def Get (h : Header) (key : String) : String :=
  match values h (CanonicalMIMEHeaderKey key) with
  | [] => ""
  | v :: _ => v

/-- Go `h.Del(key)`: `delete(h, CanonicalMIMEHeaderKey(key))`. -/
def Del (h : Header) (key : String) : Header :=
  h.filter (fun e => e.1 != CanonicalMIMEHeaderKey key)

/-- Go `h.Add(key, value)`: `h[k] = append(h[k], value)` for the canonicalised key `k`. -/
def Add (h : Header) (key value : String) : Header :=
  put h (CanonicalMIMEHeaderKey key) (values h (CanonicalMIMEHeaderKey key) ++ [value])

/-- Go `h.Set(key, value)`: `h[k] = []string{value}` for the canonicalised key `k`. -/
def Set (h : Header) (key value : String) : Header :=
  put h (CanonicalMIMEHeaderKey key) [value]

/-- A header map as `net/http` hands it over: a map has each key once, and every key is
in canonical form (a fixed point of `CanonicalMIMEHeaderKey`). -/
def WellFormed (h : Header) : Prop :=
  (keys h).Nodup ∧ ∀ k ∈ keys h, CanonicalMIMEHeaderKey k = k

instance (h : Header) : Decidable (WellFormed h) := by
  unfold WellFormed
  infer_instance

end Header

/-- Source: `func copyHeaders(dst, src http.Header)` (main.go 108-118); the result is the
content of `dst` after the call. -/
def copyHeaders (dst src : Header) : Header :=
  src.foldl (fun d kvv =>
    kvv.2.foldl (fun d v =>
      if EqualFold kvv.1 "Host" || EqualFold kvv.1 "Authorization" then d
      else Header.Add d kvv.1 v) d) dst

/-! ## Requests, responses and the handler -/

/-- Go `url.URL` (the `User` field by its text). -/
structure URL where
  Scheme : String := ""
  Opaque : String := ""
  User : String := ""
  Host : String := ""
  Path : String := ""
  RawPath : String := ""
  OmitHost : Bool := false
  ForceQuery : Bool := false
  RawQuery : String := ""
  Fragment : String := ""
  RawFragment : String := ""
deriving DecidableEq, Repr

/-- The fields of Go `http.Request` that the handler reads or sets. -/
structure Request where
  Method : String
  URL : URL
  Header : Header
  Body : String
deriving DecidableEq, Repr

/-- The fields of Go `http.Response` that the handler reads. -/
structure Response where
  StatusCode : Nat
  Header : Header
  Body : String
deriving DecidableEq, Repr

/-- State of the `http.ResponseWriter` the server hands to the handler: the header map
`w.Header()`, the final status once `WriteHeader` has fixed it (`none` before), the body
bytes written, the informational (1xx) responses sent ahead of the final one, and whether
a call has panicked: the handler is unwound at that point, so that none of its later
calls happens. -/
structure ResponseWriter where
  header : Header := []
  status : Option Nat := none
  body : String := ""
  interim : List Nat := []
  panicked : Bool := false
deriving DecidableEq, Repr

/-- Go `http.bodyAllowedForStatus`: no body with a 1xx, 204 or 304 status. -/
def bodyAllowedForStatus (status : Nat) : Bool :=
  if 100 ≤ status && status ≤ 199 then false
  else if status == 204 then false
  else if status == 304 then false
  else true

namespace ResponseWriter

/-- Go `w.WriteHeader(code)` of the server: a call after the header was written is
ignored; a code below 100 or above 999 panics (`checkWriteHeaderCode`); a 1xx code other
than 101 is sent as an informational response and fixes nothing; any other code becomes
the status. -/
def WriteHeader (w : ResponseWriter) (code : Nat) : ResponseWriter :=
  if w.panicked then w
  else
    match w.status with
    | some _ => w
    | none =>
      if code < 100 || code > 999 then { w with panicked := true }
      else if code ≤ 199 && code != 101 then { w with interim := w.interim ++ [code] }
      else { w with status := some code }

/-- Go `w.Write(p)` of the server: writes the header with status 200 if none was written;
an empty `p` writes nothing; with a status that allows no body the bytes are refused
(`ErrBodyNotAllowed`); otherwise they are appended. -/
def Write (w : ResponseWriter) (p : String) : ResponseWriter :=
  if w.panicked then w
  else
    let w1 := WriteHeader w 200
    if p = "" then w1
    else
      match w1.status with
      | some status =>
        if bodyAllowedForStatus status then { w1 with body := w1.body ++ p } else w1
      | none => w1

end ResponseWriter

/-- Go `io.Copy(w, src)` for a source holding the bytes `src`: no `Write` call for an
empty source, else the bytes are written (the copy stops when `Write` refuses them). -/
def Copy (w : ResponseWriter) (src : String) : ResponseWriter :=
  if src = "" then w else w.Write src

/-- Go `http.StatusUnauthorized`. -/
def StatusUnauthorized : Nat := 401
/-- Go `http.StatusInternalServerError`. -/
def StatusInternalServerError : Nat := 500
/-- Go `http.StatusBadGateway`. -/
def StatusBadGateway : Nat := 502

/-- Go `http.Error(w, error, code)`: plain-text headers, the status, then the text and a
newline. -/
def Error (w : ResponseWriter) (error : String) (code : Nat) : ResponseWriter :=
  let h := ((w.header.Del "Content-Length").Set "Content-Type" "text/plain; charset=utf-8").Set
    "X-Content-Type-Options" "nosniff"
  ({ w with header := h }.WriteHeader code).Write (error ++ "\n")

/-- The package-level variables of `main.go`. -/
structure Globals where
  target : URL
  expectKey : String
  scope : String
  port : String
  tokenCache : Option cachedToken
deriving DecidableEq, Repr

/-- What lies outside the program during one request: the clock, the credential provider,
what `http.NewRequestWithContext` makes of a method and of the text `u.String()` of a URL
value `u` (the error of its validation, or the URL of the new request, which `url.Parse`
reads back from that text), and the transport behind `http.DefaultClient.Do`. -/
structure Env (ε : Type) where
  now : Int
  cred : Credential ε
  newRequestURL : String → URL → Except ε URL
  send : Request → Except ε Response

/-- Go `http.NewRequestWithContext(ctx, method, url, body)`, where `url` is the text
`u.String()` of the URL value `u`: an empty method stands for `GET`; the request carries
the URL read back from the text, not the value `u` itself, and an empty header map. -/
def NewRequestWithContext {ε : Type} (env : Env ε) (method : String) (u : URL)
    (body : String) : Except ε Request :=
  let method := if method = "" then "GET" else method
  match env.newRequestURL method u with
  | .error err => .error err
  | .ok parsed => .ok { Method := method, URL := parsed, Header := [], Body := body }

/-- What one run of the handler does: the client response, the package-level variables
afterwards, the scopes of the provider calls and the requests passed to
`http.DefaultClient.Do`, in order. -/
structure Outcome where
  w : ResponseWriter
  globals : Globals
  credCalls : List (List String)
  upCalls : List Request
deriving DecidableEq, Repr

/-- The inbound request after main.go 52-53: the two key headers deleted. -/
def stripKeys (r : Request) : Request :=
  { r with Header := (r.Header.Del "api-key").Del "x-api-key" }

/-- The request built at main.go 63-74 from the inbound request `r` (whose key headers are
already stripped) and the token `tok`. -/
def buildUpstream {ε : Type} (g : Globals) (env : Env ε) (r : Request) (tok : String) :
    Except ε Request :=
  let upURL := g.target
  let upURL := { upURL with Path := singleJoiningSlash upURL.Path r.URL.Path }
  let upURL := { upURL with RawQuery := r.URL.RawQuery }
  match NewRequestWithContext env r.Method upURL r.Body with
  | .error err => .error err
  | .ok upReq =>
    let hdr := copyHeaders upReq.Header r.Header
    .ok { upReq with Header := hdr.Set "Authorization" ("Bearer " ++ tok) }

/-- Source: the handler registered in `main` (main.go 43-88), run on the response writer
`w` and the inbound request `r`. -/
def handler {ε : Type} (g : Globals) (env : Env ε) (w : ResponseWriter) (r : Request) :
    Outcome :=
  if g.expectKey != "" && r.Header.Get "api-key" != g.expectKey
      && r.Header.Get "x-api-key" != g.expectKey then
    { w := Error w "unauthorized" StatusUnauthorized, globals := g, credCalls := [],
      upCalls := [] }
  else
    let r := stripKeys r
    let t := getToken g.scope g.tokenCache env.now env.cred
    let g := { g with tokenCache := t.cache }
    match t.err with
    | some _ =>
      { w := Error w "token acquisition failed" StatusInternalServerError, globals := g,
        credCalls := t.credCalls, upCalls := [] }
    | none =>
      match buildUpstream g env r t.tok with
      | .error _ =>
        { w := Error w "bad upstream request" StatusInternalServerError, globals := g,
          credCalls := t.credCalls, upCalls := [] }
      | .ok upReq =>
        match env.send upReq with
        | .error _ =>
          { w := Error w "upstream error" StatusBadGateway, globals := g,
            credCalls := t.credCalls, upCalls := [upReq] }
        | .ok resp =>
          let w := { w with header := copyHeaders w.header resp.Header }
          let w := w.WriteHeader resp.StatusCode
          let w := Copy w resp.Body
          { w := w, globals := g, credCalls := t.credCalls, upCalls := [upReq] }

/-! ## Specification-side definitions -/

/-- Following the claim's words: `a` with one trailing `/` removed if it has one. -/
def trimOneTrailingSlash (a : String) : String :=
  if HasSuffix a "/" then ⟨a.data.dropLast⟩ else a

/-- Following the claim's words: `b` with one leading `/` removed if it has one. -/
def trimOneLeadingSlash (b : String) : String :=
  if HasPrefix b "/" then ⟨b.data.drop 1⟩ else b

/-- Following the spec's words: the keys left out of a copy, `Host` and `Authorization`
compared case-insensitively (the test of main.go 112). -/
def excludedKey (k : String) : Bool := EqualFold k "Host" || EqualFold k "Authorization"

/-- The response writer the server hands to the handler: nothing set, nothing written. -/
def freshWriter : ResponseWriter := {}

/-- Following the claim's words: `expectKey` is non-empty and neither the first value of
header `api-key` nor the first value of header `x-api-key` (keys in canonical form) equals
`expectKey`. -/
def authRejects (expectKey : String) (h : Header) : Prop :=
  expectKey ≠ "" ∧ (Header.values h "Api-Key").head? ≠ some expectKey
    ∧ (Header.values h "X-Api-Key").head? ≠ some expectKey

instance (expectKey : String) (h : Header) : Decidable (authRejects expectKey h) := by
  unfold authRejects
  infer_instance

/-- The ASCII characters. -/
def asciiChars : List Char := (List.range 128).map Char.ofNat

/-- A key written in ASCII only. -/
def isASCII (k : String) : Prop := ∀ c ∈ k.data, c.toNat < 128

/-- The characters of the two excluded header names. -/
def excludedNameChars : List Char := "HostAuthorization".data

/-! ## Concrete inputs -/

/-- A credential provider that fails. -/
def failingCred : Credential String := fun _ => .error "identity unavailable"

/-- A credential provider that answers the token `T1`, expiring at second 3600. -/
def okCred : Credential String :=
  fun _ => .ok { Token := "T1", ExpiresOn := 3600000000000 }

/-- A cached token `old` that expires at second 120. -/
def oldToken : cachedToken := { val := "old", exp := 120000000000 }

/-- The target `http://up.local`. -/
def exampleTarget : URL := { Scheme := "http", Host := "up.local" }

/-- Configuration with no shared secret. -/
def exampleGlobals : Globals :=
  { target := exampleTarget, expectKey := "",
    scope := "https://cognitiveservices.azure.com/.default", port := "8081",
    tokenCache := none }

/-- Configuration with the shared secret `S`. -/
def secretGlobals : Globals := { exampleGlobals with expectKey := "S" }

/-- The inbound request `GET /models?x=1`, with the key `S`, an `Authorization` header of
its own and two `Accept` values. -/
def exampleRequest : Request :=
  { Method := "GET", URL := { Path := "/models", RawQuery := "x=1" },
    Header := [("Accept", ["a", "b"]), ("Authorization", ["Bearer client"]),
      ("Api-Key", ["S"])],
    Body := "" }

/-- The same request without a key. -/
def keylessRequest : Request :=
  { exampleRequest with Header := [("Accept", ["a", "b"])] }

/-- The upstream answer `200` with body `{"ok":true}`. -/
def exampleResponse : Response :=
  { StatusCode := 200, Header := [("Content-Type", ["application/json"]), ("Host", ["h"])],
    Body := "\x7b\"ok\":true\x7d" }

/-- What `url.Parse` reads back from the text `u.String()` for a URL value `u` of this
shape: a lower-case scheme, a host name without port, no user, opaque part, raw path or
fragment, a path that begins with `/`, and a path and a raw query written with ASCII
letters, digits, `/`, `=` and `&` only, but for at most one `#` in the raw query (so
that nothing is escaped or unescaped).  The text is cut at its first `#` before anything
else is read: the raw query ends there and the rest is the fragment; a query left empty
after a written `?` sets `ForceQuery`. -/
def readBack (u : URL) : URL :=
  { u with
    RawQuery := ⟨u.RawQuery.data.takeWhile (fun c => c != '#')⟩,
    ForceQuery := (u.ForceQuery || u.RawQuery != "")
      && u.RawQuery.data.takeWhile (fun c => c != '#') == [],
    Fragment := ⟨(u.RawQuery.data.dropWhile (fun c => c != '#')).drop 1⟩ }

/-- An environment in which the provider answers `T1`, the new request carries the URL
read back from the text and the upstream answers `exampleResponse`. -/
def exampleEnv : Env String :=
  { now := 0, cred := okCred, newRequestURL := fun _ u => .ok (readBack u),
    send := fun _ => .ok exampleResponse }

/-- The inbound request line `GET /models?a=1#frag`: the server reads the request target
with `url.ParseRequestURI`, which takes no fragment off, so that the raw query holds
the `#`. -/
def fragmentRequest : Request :=
  { Method := "GET", URL := { Path := "/models", RawQuery := "a=1#frag" },
    Header := [("Accept", ["a", "b"])], Body := "" }

/-- An environment in which the upstream answers `401`. -/
def deniedEnv : Env String :=
  { exampleEnv with send := fun _ => .ok { StatusCode := 401, Header := [], Body := "denied" } }

/-- An upstream answer with the status line `042`, which the client delivers as 42. -/
def badStatusResponse : Response := { StatusCode := 42, Header := [], Body := "x" }

/-- An environment in which the upstream answers `badStatusResponse`. -/
def badStatusEnv : Env String := { exampleEnv with send := fun _ => .ok badStatusResponse }

/-- An upstream answer `101 Switching Protocols` followed by the byte `x`. -/
def upgradeResponse : Response :=
  { StatusCode := 101, Header := [("Upgrade", ["websocket"])], Body := "x" }

/-- An environment in which the upstream answers `upgradeResponse`. -/
def upgradeEnv : Env String := { exampleEnv with send := fun _ => .ok upgradeResponse }

/-- An environment in which the transport fails. -/
def downEnv : Env String :=
  { exampleEnv with send := fun _ => .error "connection refused" }

/-- An environment in which the provider fails. -/
def noTokenEnv : Env String := { exampleEnv with cred := failingCred }

/-- The outbound request `GET http://up.local/models?x=1` with the injected token. -/
def exampleUpstream : Request :=
  { Method := "GET",
    URL := { Scheme := "http", Host := "up.local", Path := "/models", RawQuery := "x=1" },
    Header := [("Accept", ["a", "b"]), ("Authorization", ["Bearer T1"])],
    Body := "" }

/-! ## Lemmas on strings -/

theorem hasSuffix_slash_iff (a : String) :
    HasSuffix a "/" = true ↔ ∃ l, a.data = l ++ ['/'] := by
  unfold HasSuffix
  rw [List.isSuffixOf_iff_suffix]
  constructor
  · rintro ⟨l, hl⟩
    exact ⟨l, hl.symm⟩
  · rintro ⟨l, hl⟩
    exact ⟨l, hl.symm⟩

theorem hasPrefix_slash_iff (b : String) :
    HasPrefix b "/" = true ↔ ∃ l, b.data = '/' :: l := by
  unfold HasPrefix
  rw [List.isPrefixOf_iff_prefix]
  constructor
  · rintro ⟨l, hl⟩
    exact ⟨l, hl.symm⟩
  · rintro ⟨l, hl⟩
    exact ⟨l, hl.symm⟩

theorem hasSuffix_two_slashes_iff (a : String) :
    HasSuffix a "//" = true ↔ ∃ l, a.data = l ++ ['/', '/'] := by
  unfold HasSuffix
  rw [List.isSuffixOf_iff_suffix]
  constructor
  · rintro ⟨l, hl⟩
    exact ⟨l, hl.symm⟩
  · rintro ⟨l, hl⟩
    exact ⟨l, hl.symm⟩

theorem hasPrefix_two_slashes_iff (b : String) :
    HasPrefix b "//" = true ↔ ∃ l, b.data = '/' :: '/' :: l := by
  unfold HasPrefix
  rw [List.isPrefixOf_iff_prefix]
  constructor
  · rintro ⟨l, hl⟩
    exact ⟨l, hl.symm⟩
  · rintro ⟨l, hl⟩
    exact ⟨l, hl.symm⟩

theorem singleJoiningSlash_eq_trim (a b : String) :
    singleJoiningSlash a b = trimOneTrailingSlash a ++ "/" ++ trimOneLeadingSlash b := by
  unfold singleJoiningSlash trimOneTrailingSlash trimOneLeadingSlash sliceFrom1
  cases ha : HasSuffix a "/" <;> cases hb : HasPrefix b "/"
  · simp
  · obtain ⟨l, hl⟩ := (hasPrefix_slash_iff b).1 hb
    apply String.ext
    simp [String.data_append, hl]
  · obtain ⟨l, hl⟩ := (hasSuffix_slash_iff a).1 ha
    apply String.ext
    simp [String.data_append, hl]
  · obtain ⟨l, hl⟩ := (hasSuffix_slash_iff a).1 ha
    obtain ⟨m, hm⟩ := (hasPrefix_slash_iff b).1 hb
    apply String.ext
    simp [String.data_append, hl, hm]

theorem trimOneTrailingSlash_junction (a : String) :
    HasSuffix a "//" = true ∨ HasSuffix (trimOneTrailingSlash a) "/" = false := by
  unfold trimOneTrailingSlash
  cases ha : HasSuffix a "/"
  · right
    simpa using ha
  · obtain ⟨l, hl⟩ := (hasSuffix_slash_iff a).1 ha
    cases hl2 : HasSuffix ⟨l⟩ "/"
    · right
      simpa [hl] using hl2
    · left
      obtain ⟨m, hm⟩ := (hasSuffix_slash_iff ⟨l⟩).1 hl2
      refine (hasSuffix_two_slashes_iff a).2 ⟨m, ?_⟩
      simp only at hm
      rw [hl, hm]
      simp

theorem trimOneLeadingSlash_junction (b : String) :
    HasPrefix b "//" = true ∨ HasPrefix (trimOneLeadingSlash b) "/" = false := by
  unfold trimOneLeadingSlash
  cases hb : HasPrefix b "/"
  · right
    simpa using hb
  · obtain ⟨l, hl⟩ := (hasPrefix_slash_iff b).1 hb
    cases hl2 : HasPrefix ⟨l⟩ "/"
    · right
      simpa [hl] using hl2
    · left
      obtain ⟨m, hm⟩ := (hasPrefix_slash_iff ⟨l⟩).1 hl2
      refine (hasPrefix_two_slashes_iff b).2 ⟨m, ?_⟩
      simp only at hm
      rw [hl, hm]

/-! ## Lemmas on canonical keys and case folding -/

theorem mem_asciiChars (c : Char) (h : c.toNat < 128) : c ∈ asciiChars := by
  unfold asciiChars
  rw [List.mem_map]
  exact ⟨c.toNat, List.mem_range.2 h, Char.ofNat_toNat c⟩

set_option maxRecDepth 1000000 in
theorem ascii_fold_valid :
    ∀ c ∈ asciiChars, ∀ d ∈ excludedNameChars,
      foldClass c = foldClass d → validHeaderFieldByte c = true := by
  decide

set_option maxRecDepth 1000000 in
theorem ascii_fold_canon :
    ∀ c ∈ asciiChars, ∀ d ∈ excludedNameChars, ∀ u : Bool,
      foldClass c = foldClass d → canonStep u c = c → canonStep u d = d → c = d := by
  decide

theorem equalFold_all_valid (t k : List Char) (ht : ∀ d ∈ t, d ∈ excludedNameChars)
    (hk : ∀ c ∈ k, c.toNat < 128) (he : equalFoldRunes k t = true) :
    k.all validHeaderFieldByte = true := by
  induction t generalizing k with
  | nil =>
    cases k with
    | nil => rfl
    | cons c k => simp [equalFoldRunes] at he
  | cons d t ih =>
    cases k with
    | nil => simp [equalFoldRunes] at he
    | cons c k =>
      simp only [equalFoldRunes, Bool.and_eq_true, beq_iff_eq] at he
      simp only [List.all_cons, Bool.and_eq_true]
      refine ⟨?_, ?_⟩
      · exact ascii_fold_valid c (mem_asciiChars c (hk c (List.mem_cons_self c k))) d
          (ht d (List.mem_cons_self d t)) he.1
      · exact ih k (fun d1 hd => ht d1 (List.mem_cons_of_mem d hd))
          (fun c1 hc => hk c1 (List.mem_cons_of_mem c hc)) he.2

theorem canonical_fold_eq (t k : List Char) (u : Bool)
    (ht : ∀ d ∈ t, d ∈ excludedNameChars) (hk : ∀ c ∈ k, c.toNat < 128)
    (he : equalFoldRunes k t = true) (hck : canonLoop u k = k) (hct : canonLoop u t = t) :
    k = t := by
  induction t generalizing k u with
  | nil =>
    cases k with
    | nil => rfl
    | cons c k => simp [equalFoldRunes] at he
  | cons d t ih =>
    cases k with
    | nil => simp [equalFoldRunes] at he
    | cons c k =>
      simp only [equalFoldRunes, Bool.and_eq_true, beq_iff_eq] at he
      simp only [canonLoop, List.cons.injEq] at hck hct
      have hcd : c = d :=
        ascii_fold_canon c (mem_asciiChars c (hk c (List.mem_cons_self c k))) d
          (ht d (List.mem_cons_self d t)) u he.1 hck.1 hct.1
      subst hcd
      rw [hck.1] at hck
      rw [hct.1] at hct
      rw [ih k (c == '-') (fun d1 hd => ht d1 (List.mem_cons_of_mem c hd))
        (fun c1 hc => hk c1 (List.mem_cons_of_mem c hc)) he.2 hck.2 hct.2]

theorem equalFold_canonical_eq (k lit : String) (hl : ∀ d ∈ lit.data, d ∈ excludedNameChars)
    (hcl : canonLoop true lit.data = lit.data) (hc : CanonicalMIMEHeaderKey k = k)
    (ha : isASCII k) (he : EqualFold k lit = true) : k = lit := by
  have hv := equalFold_all_valid lit.data k.data hl ha he
  unfold CanonicalMIMEHeaderKey at hc
  rw [if_pos hv] at hc
  have hck : canonLoop true k.data = k.data := congrArg String.data hc
  exact String.ext (canonical_fold_eq lit.data k.data true hl ha he hck hcl)

/-- For a key in canonical form written in ASCII, the test of main.go 112 holds exactly
for the names `Host` and `Authorization`. -/
theorem excludedKey_ascii (k : String) (hc : CanonicalMIMEHeaderKey k = k) (ha : isASCII k)
    (hH : k ≠ "Host") (hA : k ≠ "Authorization") : excludedKey k = false := by
  unfold excludedKey
  rw [Bool.or_eq_false_iff]
  constructor
  · by_contra h1
    have h2 : EqualFold k "Host" = true := by simpa using h1
    exact hH (equalFold_canonical_eq k "Host" (by decide) (by decide) hc ha h2)
  · by_contra h1
    have h2 : EqualFold k "Authorization" = true := by simpa using h1
    exact hA (equalFold_canonical_eq k "Authorization" (by decide) (by decide) hc ha h2)

/-! ## Lemmas on header maps -/

namespace Header

theorem values_cons (k : String) (vs : List String) (h : Header) (k1 : String) :
    values ((k, vs) :: h) k1 = if k1 = k then vs else values h k1 := by
  unfold values
  rw [List.lookup_cons]
  by_cases hk : k1 = k
  · subst hk
    simp
  · have hne : (k1 == k) = false := by simpa using hk
    simp [hne, hk]

theorem mem_keys_cons (k : String) (vs : List String) (h : Header) (k1 : String) :
    k1 ∈ keys ((k, vs) :: h) ↔ k1 = k ∨ k1 ∈ keys h := by
  simp [keys]

theorem values_of_not_mem_keys (h : Header) (k1 : String) (hk : k1 ∉ keys h) :
    values h k1 = [] := by
  induction h with
  | nil => rfl
  | cons e h ih =>
    obtain ⟨k, vs⟩ := e
    rw [mem_keys_cons] at hk
    push_neg at hk
    rw [values_cons, if_neg hk.1]
    exact ih hk.2

theorem any_key_iff (h : Header) (k : String) :
    h.any (fun e => e.1 == k) = true ↔ k ∈ keys h := by
  simp [keys, List.any_eq_true]

theorem values_map_replace (h : Header) (k : String) (vs : List String) (k1 : String) :
    values (h.map (fun e => if e.1 == k then (k, vs) else e)) k1
      = if k1 = k then (if k ∈ keys h then vs else []) else values h k1 := by
  generalize hf : (fun e : String × List String => if e.1 == k then (k, vs) else e) = f
  have hfk : ∀ b, f (k, b) = (k, vs) := by
    intro b
    rw [← hf]
    simp
  have hfn : ∀ a b, a ≠ k → f (a, b) = (a, b) := by
    intro a b hab
    rw [← hf]
    simp [hab]
  induction h with
  | nil => simp [values, keys]
  | cons e h ih =>
    obtain ⟨a, b⟩ := e
    rw [List.map_cons]
    by_cases ha : a = k
    · subst ha
      rw [hfk, values_cons, values_cons, ih]
      by_cases hk : k1 = a <;> simp [hk, mem_keys_cons]
    · rw [hfn a b ha, values_cons, values_cons, ih]
      by_cases hk : k1 = a
      · subst hk
        simp [ha]
      · have hka : ¬ k = a := fun h1 => ha h1.symm
        simp [hk, mem_keys_cons, hka]

theorem keys_map_replace (h : Header) (k : String) (vs : List String) :
    keys (h.map (fun e => if e.1 == k then (k, vs) else e)) = keys h := by
  generalize hf : (fun e : String × List String => if e.1 == k then (k, vs) else e) = f
  have hf1 : ∀ e, (f e).1 = e.1 := by
    intro e
    rw [← hf]
    by_cases he : e.1 = k <;> simp [he]
  unfold keys
  rw [List.map_map]
  apply List.map_congr_left
  intro e _
  exact hf1 e

theorem values_append_single (h : Header) (k : String) (vs : List String) (k1 : String)
    (hk : k ∉ keys h) :
    values (h ++ [(k, vs)]) k1 = if k1 = k then vs else values h k1 := by
  induction h with
  | nil =>
    rw [List.nil_append, values_cons]
  | cons e h ih =>
    obtain ⟨a, b⟩ := e
    rw [mem_keys_cons] at hk
    push_neg at hk
    simp only [List.cons_append, values_cons]
    rw [ih hk.2]
    by_cases h1 : k1 = a
    · subst h1
      have : ¬ k1 = k := fun h2 => hk.1 h2.symm
      simp [this]
    · simp [h1]

theorem values_put (h : Header) (k : String) (vs : List String) (k1 : String) :
    values (put h k vs) k1 = if k1 = k then vs else values h k1 := by
  unfold put
  by_cases hk : k ∈ keys h
  · rw [if_pos ((any_key_iff h k).2 hk), values_map_replace]
    simp [hk]
  · have : ¬ (h.any (fun e => e.1 == k) = true) := fun h1 => hk ((any_key_iff h k).1 h1)
    rw [if_neg this]
    exact values_append_single h k vs k1 hk

theorem mem_keys_put (h : Header) (k : String) (vs : List String) (k1 : String) :
    k1 ∈ keys (put h k vs) ↔ k1 = k ∨ k1 ∈ keys h := by
  unfold put
  by_cases hk : k ∈ keys h
  · rw [if_pos ((any_key_iff h k).2 hk), keys_map_replace]
    constructor
    · exact fun h1 => Or.inr h1
    · rintro (rfl | h1)
      · exact hk
      · exact h1
  · have : ¬ (h.any (fun e => e.1 == k) = true) := fun h1 => hk ((any_key_iff h k).1 h1)
    rw [if_neg this]
    simp only [keys, List.map_append, List.map_cons, List.map_nil, List.mem_append,
      List.mem_singleton]
    tauto

theorem values_Del (h : Header) (key : String) (k1 : String) :
    values (Del h key) k1 = if k1 = CanonicalMIMEHeaderKey key then [] else values h k1 := by
  unfold Del
  induction h with
  | nil => simp [values]
  | cons e h ih =>
    obtain ⟨a, b⟩ := e
    by_cases ha : a = CanonicalMIMEHeaderKey key
    · subst ha
      simp only [List.filter_cons, bne_self_eq_false, Bool.false_eq_true, if_false,
        values_cons]
      rw [ih]
      by_cases h1 : k1 = CanonicalMIMEHeaderKey key <;> simp [h1]
    · have hne : (a != CanonicalMIMEHeaderKey key) = true := by simpa using ha
      simp only [List.filter_cons, hne, if_true, values_cons]
      rw [ih]
      by_cases h1 : k1 = a
      · subst h1
        simp [ha]
      · simp [h1]

theorem mem_keys_Del (h : Header) (key : String) (k1 : String) :
    k1 ∈ keys (Del h key) ↔ k1 ∈ keys h ∧ k1 ≠ CanonicalMIMEHeaderKey key := by
  unfold Del keys
  simp only [List.mem_map, List.mem_filter, bne_iff_ne, ne_eq]
  constructor
  · rintro ⟨e, ⟨he, hne⟩, rfl⟩
    exact ⟨⟨e, he, rfl⟩, hne⟩
  · rintro ⟨⟨e, he, rfl⟩, hne⟩
    exact ⟨e, ⟨he, hne⟩, rfl⟩

theorem wellFormed_Del (h : Header) (key : String) (hw : WellFormed h) :
    WellFormed (Del h key) := by
  refine ⟨?_, ?_⟩
  · have hs : List.Sublist (Del h key) h := List.filter_sublist h
    exact List.Nodup.sublist (hs.map Prod.fst) hw.1
  · intro k hk
    exact hw.2 k ((mem_keys_Del h key k).1 hk).1

theorem wellFormed_tail (e : String × List String) (h : Header) (hw : WellFormed (e :: h)) :
    e.1 ∉ keys h ∧ CanonicalMIMEHeaderKey e.1 = e.1 ∧ WellFormed h := by
  obtain ⟨hn, hc⟩ := hw
  simp only [keys, List.map_cons, List.nodup_cons] at hn
  refine ⟨hn.1, hc e.1 (by simp [keys]), hn.2, ?_⟩
  intro k hk
  exact hc k (by simp only [keys, List.map_cons, List.mem_cons]; exact Or.inr hk)

theorem values_Add (h : Header) (key v k1 : String) :
    values (Add h key v) k1
      = if k1 = CanonicalMIMEHeaderKey key then values h k1 ++ [v] else values h k1 := by
  unfold Add
  rw [values_put]
  by_cases hk : k1 = CanonicalMIMEHeaderKey key
  · subst hk
    simp
  · simp [hk]

theorem mem_keys_Add (h : Header) (key v k1 : String) :
    k1 ∈ keys (Add h key v) ↔ k1 = CanonicalMIMEHeaderKey key ∨ k1 ∈ keys h := by
  unfold Add
  exact mem_keys_put _ _ _ _

theorem values_Set (h : Header) (key v k1 : String) :
    values (Set h key v) k1
      = if k1 = CanonicalMIMEHeaderKey key then [v] else values h k1 := by
  unfold Set
  exact values_put _ _ _ _

theorem mem_keys_Set (h : Header) (key v k1 : String) :
    k1 ∈ keys (Set h key v) ↔ k1 = CanonicalMIMEHeaderKey key ∨ k1 ∈ keys h := by
  unfold Set
  exact mem_keys_put _ _ _ _

end Header

namespace Header

theorem lookup_eq_some_iff_mem (h : Header) (hn : (keys h).Nodup) (k : String)
    (vs : List String) : h.lookup k = some vs ↔ (k, vs) ∈ h := by
  induction h with
  | nil => simp
  | cons e h ih =>
    obtain ⟨a, b⟩ := e
    simp only [keys, List.map_cons, List.nodup_cons] at hn
    rw [List.lookup_cons]
    by_cases hk : k = a
    · subst hk
      simp only [beq_self_eq_true, Option.some.injEq, List.mem_cons, Prod.mk.injEq, true_and]
      constructor
      · intro h1
        exact Or.inl h1.symm
      · rintro (h1 | h1)
        · exact h1.symm
        · exact absurd (List.mem_map_of_mem Prod.fst h1) hn.1
    · have hne : (k == a) = false := by simpa using hk
      simp only [hne, List.mem_cons, Prod.mk.injEq, hk, false_and, false_or]
      exact ih hn.2

theorem lookup_perm (h hdr : Header) (hn : (keys h).Nodup) (hp : hdr.Perm h) (k : String) :
    hdr.lookup k = h.lookup k := by
  have hn1 : (keys hdr).Nodup := ((hp.map Prod.fst).nodup_iff).2 hn
  cases e1 : hdr.lookup k with
  | some vs =>
    have h1 := (lookup_eq_some_iff_mem hdr hn1 k vs).1 e1
    exact ((lookup_eq_some_iff_mem h hn k vs).2 (hp.mem_iff.1 h1)).symm
  | none =>
    cases e2 : h.lookup k with
    | none => rfl
    | some vs =>
      have h1 := (lookup_eq_some_iff_mem h hn k vs).1 e2
      have h2 := (lookup_eq_some_iff_mem hdr hn1 k vs).2 (hp.mem_iff.2 h1)
      rw [e1] at h2
      cases h2

/-- The value list of a key does not depend on the order of the entries. -/
theorem values_perm (h hdr : Header) (hw : WellFormed h) (hp : hdr.Perm h) (k : String) :
    values hdr k = values h k := by
  unfold values
  rw [lookup_perm h hdr hw.1 hp k]

theorem wellFormed_perm (h hdr : Header) (hw : WellFormed h) (hp : hdr.Perm h) :
    WellFormed hdr := by
  refine ⟨((hp.map Prod.fst).nodup_iff).2 hw.1, ?_⟩
  intro k hk
  exact hw.2 k (((hp.map Prod.fst).mem_iff).1 hk)

end Header

/-! ## Lemmas on `copyHeaders` -/

open Header in
theorem copyInner_values (k : String) (vv : List String) (d : Header) (k1 : String) :
    values (vv.foldl (fun d v =>
        if EqualFold k "Host" || EqualFold k "Authorization" then d
        else Header.Add d k v) d) k1
      = if excludedKey k = false ∧ k1 = CanonicalMIMEHeaderKey k then values d k1 ++ vv
        else values d k1 := by
  induction vv generalizing d with
  | nil => simp
  | cons v vv ih =>
    rw [List.foldl_cons, ih]
    cases he : excludedKey k
    · have he1 : (EqualFold k "Host" || EqualFold k "Authorization") = false := he
      simp only [he1, Bool.false_eq_true, if_false, true_and]
      by_cases hk : k1 = CanonicalMIMEHeaderKey k
      · simp [hk, values_Add]
      · simp [hk, values_Add]
    · have he1 : (EqualFold k "Host" || EqualFold k "Authorization") = true := he
      rw [if_pos he1]
      simp

open Header in
theorem copyInner_keys (k : String) (vv : List String) (d : Header) (k1 : String) :
    k1 ∈ keys (vv.foldl (fun d v =>
        if EqualFold k "Host" || EqualFold k "Authorization" then d
        else Header.Add d k v) d)
      ↔ k1 ∈ keys d ∨ (excludedKey k = false ∧ vv ≠ [] ∧ k1 = CanonicalMIMEHeaderKey k) := by
  induction vv generalizing d with
  | nil => simp
  | cons v vv ih =>
    rw [List.foldl_cons, ih]
    cases he : excludedKey k
    · have he1 : (EqualFold k "Host" || EqualFold k "Authorization") = false := he
      simp only [he1, Bool.false_eq_true, if_false, true_and, mem_keys_Add]
      constructor
      · rintro ((h1 | h1) | ⟨_, h1⟩)
        · exact Or.inr ⟨by simp, h1⟩
        · exact Or.inl h1
        · exact Or.inr ⟨by simp, h1⟩
      · rintro (h1 | ⟨_, h1⟩)
        · exact Or.inl (Or.inr h1)
        · exact Or.inl (Or.inl h1)
    · have he1 : (EqualFold k "Host" || EqualFold k "Authorization") = true := he
      simp [he1]

theorem copyHeaders_cons (dst : Header) (k : String) (vv : List String) (src : Header) :
    copyHeaders dst ((k, vv) :: src)
      = copyHeaders (vv.foldl (fun d v =>
          if EqualFold k "Host" || EqualFold k "Authorization" then d
          else Header.Add d k v) dst) src := rfl

open Header in
/-- The value list of every key after `copyHeaders`: what `dst` held, followed by the
values of the source unless the key is excluded. -/
theorem copyHeaders_values (dst src : Header) (hw : WellFormed src) (k1 : String) :
    values (copyHeaders dst src) k1
      = values dst k1 ++ (if excludedKey k1 then [] else values src k1) := by
  induction src generalizing dst with
  | nil => simp [copyHeaders, values]
  | cons e src ih =>
    obtain ⟨k, vv⟩ := e
    obtain ⟨hnot, hcan, hw1⟩ := wellFormed_tail (k, vv) src hw
    simp only at hnot hcan
    rw [copyHeaders_cons, ih _ hw1, copyInner_values, hcan, values_cons]
    by_cases hk : k1 = k
    · subst hk
      rw [values_of_not_mem_keys src k1 hnot]
      cases he : excludedKey k1 <;> simp
    · simp [hk]

open Header in
/-- The keys after `copyHeaders`: those of `dst`, and the keys of the source that are not
excluded and carry at least one value. -/
theorem copyHeaders_keys (dst src : Header) (hw : WellFormed src) (k1 : String) :
    k1 ∈ keys (copyHeaders dst src)
      ↔ k1 ∈ keys dst ∨ (excludedKey k1 = false ∧ values src k1 ≠ []) := by
  induction src generalizing dst with
  | nil => simp [copyHeaders, values]
  | cons e src ih =>
    obtain ⟨k, vv⟩ := e
    obtain ⟨hnot, hcan, hw1⟩ := wellFormed_tail (k, vv) src hw
    simp only at hnot hcan
    rw [copyHeaders_cons, ih _ hw1, copyInner_keys, hcan, values_cons]
    by_cases hk : k1 = k
    · subst hk
      rw [values_of_not_mem_keys src k1 hnot]
      simp only [if_true, ne_eq, not_true_eq_false, and_false, or_false, and_true]
    · simp [hk]

/-! ## Lemmas on the token cache -/

theorem getToken_hit {ε : Type} (scope : String) (t : cachedToken) (now : Int)
    (cred : Credential ε) (h : now < t.exp - Minute) :
    getToken scope (some t) now cred
      = { tok := t.val, err := none, cache := some t, credCalls := [] } := by
  have h1 : Before now (Add t.exp (-1 * Minute)) = true := by
    unfold Before Add
    simp only [decide_eq_true_eq]
    omega
  have h2 : (some t).filter (fun t => Before now (Add t.exp (-1 * Minute))) = some t := by
    show (if Before now (Add t.exp (-1 * Minute)) = true then some t else none) = some t
    rw [if_pos h1]
  unfold getToken
  rw [h2]

theorem getToken_miss {ε : Type} (scope : String) (tokenCache : Option cachedToken)
    (now : Int) (cred : Credential ε)
    (h : ∀ t, tokenCache = some t → t.exp - Minute ≤ now) :
    getToken scope tokenCache now cred
      = match cred [scope] with
        | .error err =>
          { tok := "", err := some err, cache := tokenCache, credCalls := [[scope]] }
        | .ok tk =>
          { tok := tk.Token, err := none,
            cache := some { val := tk.Token, exp := tk.ExpiresOn }, credCalls := [[scope]] } := by
  have h1 : tokenCache.filter (fun t => Before now (Add t.exp (-1 * Minute))) = none := by
    cases tokenCache with
    | none => rfl
    | some t =>
      have h2 := h t rfl
      have h3 : Before now (Add t.exp (-1 * Minute)) = false := by
        unfold Before Add
        simp only [decide_eq_false_iff_not]
        omega
      show (if Before now (Add t.exp (-1 * Minute)) = true then some t else none) = none
      rw [h3]
      rfl
  unfold getToken
  rw [h1]

theorem getToken_calls_imp_miss {ε : Type} (scope : String) (tokenCache : Option cachedToken)
    (now : Int) (cred : Credential ε)
    (h : (getToken scope tokenCache now cred).credCalls ≠ []) :
    ∀ t, tokenCache = some t → t.exp - Minute ≤ now := by
  intro t ht
  by_contra hlt
  push_neg at hlt
  subst ht
  rw [getToken_hit scope t now cred hlt] at h
  exact h rfl

/-- A run of calls that all come at or after `exp - 1 minute` and whose refreshes all
fail: every call asks the provider and returns an error, and the entry stays. -/
theorem failing_run {ε : Type} (scope : String) (t : cachedToken) (t1 : Int)
    (calls : List (Int × Credential ε)) (hexp : t.exp - Minute ≤ t1)
    (hcalls : ∀ call ∈ calls, t1 ≤ call.1 ∧ ∃ e, call.2 [scope] = .error e) :
    (∀ o ∈ getTokenSeq scope (some t) calls,
        o.tok = "" ∧ o.err ≠ none ∧ o.credCalls = [[scope]] ∧ o.cache = some t)
    ∧ cacheAfter scope (some t) calls = some t := by
  induction calls with
  | nil =>
    constructor
    · intro o ho
      simp [getTokenSeq] at ho
    · rfl
  | cons call rest ih =>
    obtain ⟨hle, e, he⟩ := hcalls call (List.mem_cons_self call rest)
    have hm : ∀ t0, some t = some t0 → t0.exp - Minute ≤ call.1 := by
      intro t0 ht0
      cases ht0
      exact le_trans hexp hle
    have hg : getToken scope (some t) call.1 call.2
        = { tok := "", err := some e, cache := some t, credCalls := [[scope]] } := by
      rw [getToken_miss scope _ call.1 call.2 hm, he]
    have ih1 := ih (fun c hc => hcalls c (List.mem_cons_of_mem call hc))
    constructor
    · intro o ho
      simp only [getTokenSeq, List.mem_cons] at ho
      rcases ho with ho | ho
      · rw [ho, hg]
        exact ⟨rfl, by simp, rfl, rfl⟩
      · rw [hg] at ho
        exact ih1.1 o ho
    · simp only [cacheAfter]
      rw [hg]
      exact ih1.2

theorem getToken_credCalls_length {ε : Type} (scope : String)
    (tokenCache : Option cachedToken) (now : Int) (cred : Credential ε) :
    (getToken scope tokenCache now cred).credCalls.length ≤ 1 := by
  unfold getToken
  split
  · simp
  · split <;> simp

/-! ## Lemmas on the handler -/

theorem Get_eq_iff (h : Header) (key expectKey : String) (hne : expectKey ≠ "") :
    Header.Get h key = expectKey
      ↔ (Header.values h (CanonicalMIMEHeaderKey key)).head? = some expectKey := by
  unfold Header.Get
  cases Header.values h (CanonicalMIMEHeaderKey key) with
  | nil =>
    simp only [List.head?_nil]
    constructor
    · intro h1
      exact absurd h1.symm hne
    · intro h1
      cases h1
  | cons v vs => simp

theorem authCond_iff (g : Globals) (r : Request) :
    (g.expectKey != "" && r.Header.Get "api-key" != g.expectKey
      && r.Header.Get "x-api-key" != g.expectKey) = true
      ↔ authRejects g.expectKey r.Header := by
  unfold authRejects
  simp only [Bool.and_eq_true, bne_iff_ne, ne_eq, and_assoc]
  constructor
  · rintro ⟨h1, h2, h3⟩
    refine ⟨h1, ?_, ?_⟩
    · intro h4
      exact h2 ((Get_eq_iff r.Header "api-key" g.expectKey h1).2 h4)
    · intro h4
      exact h3 ((Get_eq_iff r.Header "x-api-key" g.expectKey h1).2 h4)
  · rintro ⟨h1, h2, h3⟩
    refine ⟨h1, ?_, ?_⟩
    · intro h4
      exact h2 ((Get_eq_iff r.Header "api-key" g.expectKey h1).1 h4)
    · intro h4
      exact h3 ((Get_eq_iff r.Header "x-api-key" g.expectKey h1).1 h4)

theorem handler_reject {ε : Type} (g : Globals) (env : Env ε) (w : ResponseWriter)
    (r : Request) (hA : authRejects g.expectKey r.Header) :
    handler g env w r
      = { w := Error w "unauthorized" StatusUnauthorized, globals := g, credCalls := [],
          upCalls := [] } := by
  unfold handler
  rw [if_pos ((authCond_iff g r).2 hA)]

theorem handler_pass {ε : Type} (g : Globals) (env : Env ε) (w : ResponseWriter)
    (r : Request) (hA : ¬ authRejects g.expectKey r.Header) :
    handler g env w r
      = match (getToken g.scope g.tokenCache env.now env.cred).err with
        | some _ =>
          { w := Error w "token acquisition failed" StatusInternalServerError,
            globals := { g with
              tokenCache := (getToken g.scope g.tokenCache env.now env.cred).cache },
            credCalls := (getToken g.scope g.tokenCache env.now env.cred).credCalls,
            upCalls := [] }
        | none =>
          match buildUpstream
              { g with tokenCache := (getToken g.scope g.tokenCache env.now env.cred).cache }
              env (stripKeys r) (getToken g.scope g.tokenCache env.now env.cred).tok with
          | .error _ =>
            { w := Error w "bad upstream request" StatusInternalServerError,
              globals := { g with
                tokenCache := (getToken g.scope g.tokenCache env.now env.cred).cache },
              credCalls := (getToken g.scope g.tokenCache env.now env.cred).credCalls,
              upCalls := [] }
          | .ok upReq =>
            match env.send upReq with
            | .error _ =>
              { w := Error w "upstream error" StatusBadGateway,
                globals := { g with
                  tokenCache := (getToken g.scope g.tokenCache env.now env.cred).cache },
                credCalls := (getToken g.scope g.tokenCache env.now env.cred).credCalls,
                upCalls := [upReq] }
            | .ok resp =>
              { w := Copy (ResponseWriter.WriteHeader
                    { w with header := copyHeaders w.header resp.Header }
                    resp.StatusCode) resp.Body,
                globals := { g with
                  tokenCache := (getToken g.scope g.tokenCache env.now env.cred).cache },
                credCalls := (getToken g.scope g.tokenCache env.now env.cred).credCalls,
                upCalls := [upReq] } := by
  unfold handler
  rw [if_neg (fun h => hA ((authCond_iff g r).1 h))]

theorem buildUpstream_ok {ε : Type} (g : Globals) (env : Env ε) (r : Request)
    (tok : String) (upReq : Request) (h : buildUpstream g env r tok = .ok upReq) :
    upReq.Method = (if r.Method = "" then "GET" else r.Method)
    ∧ upReq.Body = r.Body
    ∧ upReq.Header = (copyHeaders [] r.Header).Set "Authorization" ("Bearer " ++ tok)
    ∧ env.newRequestURL (if r.Method = "" then "GET" else r.Method)
        { g.target with
          Path := singleJoiningSlash g.target.Path r.URL.Path,
          RawQuery := r.URL.RawQuery } = .ok upReq.URL := by
  unfold buildUpstream NewRequestWithContext at h
  dsimp only at h
  split at h
  · cases h
  · rename_i upReq1 heq
    split at heq
    · cases heq
    · rename_i parsed hp
      cases heq
      cases h
      exact ⟨rfl, rfl, rfl, hp⟩

/-- Every request passed to the transport is the one built from the stripped inbound
request and the acquired token; the handler passes at most that one. -/
theorem mem_upCalls {ε : Type} (g : Globals) (env : Env ε) (w : ResponseWriter)
    (r : Request) (upReq : Request) (h : upReq ∈ (handler g env w r).upCalls) :
    (handler g env w r).upCalls = [upReq]
    ∧ ¬ authRejects g.expectKey r.Header
    ∧ (getToken g.scope g.tokenCache env.now env.cred).err = none
    ∧ buildUpstream
        { g with tokenCache := (getToken g.scope g.tokenCache env.now env.cred).cache }
        env (stripKeys r) (getToken g.scope g.tokenCache env.now env.cred).tok
        = .ok upReq := by
  by_cases hA : authRejects g.expectKey r.Header
  · rw [handler_reject g env w r hA] at h
    simp at h
  · rw [handler_pass g env w r hA] at h ⊢
    split at h
    · simp at h
    · rename_i hT
      split at h
      · simp at h
      · rename_i up1 hB
        split at h
        · simp only [List.mem_singleton] at h
          subst h
          exact ⟨rfl, hA, hT, hB⟩
        · simp only [List.mem_singleton] at h
          subst h
          exact ⟨rfl, hA, hT, hB⟩

theorem WriteHeader_final (w : ResponseWriter) (code : Nat) (hs : w.status = none)
    (hp : w.panicked = false) (hv : code = 101 ∨ (200 ≤ code ∧ code ≤ 999)) :
    w.WriteHeader code = { w with status := some code } := by
  unfold ResponseWriter.WriteHeader
  have h1 : (decide (code < 100) || decide (code > 999)) = false := by
    rw [Bool.or_eq_false_iff]
    constructor <;> simp <;> omega
  have h2 : (decide (code ≤ 199) && (code != 101)) = false := by
    rw [Bool.and_eq_false_iff]
    rcases hv with h | h
    · right
      simp [h]
    · left
      simp
      omega
  simp only [hp, hs, h1, h2, Bool.false_eq_true, if_false]

theorem WriteHeader_panic (w : ResponseWriter) (code : Nat) (hs : w.status = none)
    (hp : w.panicked = false) (hv : code < 100 ∨ code > 999) :
    w.WriteHeader code = { w with panicked := true } := by
  unfold ResponseWriter.WriteHeader
  have h1 : (decide (code < 100) || decide (code > 999)) = true := by
    rw [Bool.or_eq_true]
    rcases hv with h | h
    · left
      simpa using h
    · right
      simpa using h
  simp only [hp, hs, h1, Bool.false_eq_true, if_false, if_true]

theorem Copy_written (w : ResponseWriter) (src : String) (code : Nat)
    (hs : w.status = some code) (hp : w.panicked = false) :
    Copy w src
      = if src = "" then w
        else if bodyAllowedForStatus code then { w with body := w.body ++ src } else w := by
  unfold Copy
  by_cases h : src = ""
  · simp [h]
  · simp only [h, if_false]
    unfold ResponseWriter.Write ResponseWriter.WriteHeader
    simp only [hp, hs, Bool.false_eq_true, if_false, h]

theorem Copy_panicked (w : ResponseWriter) (src : String) (hp : w.panicked = true) :
    Copy w src = w := by
  unfold Copy
  by_cases h : src = ""
  · simp [h]
  · simp only [h, if_false]
    unfold ResponseWriter.Write
    simp [hp]

theorem Error_unauthorized :
    (Error freshWriter "unauthorized" StatusUnauthorized).status = some 401
    ∧ (Error freshWriter "unauthorized" StatusUnauthorized).body = "unauthorized\n" := by
  decide

theorem Error_token :
    (Error freshWriter "token acquisition failed" StatusInternalServerError).status
        = some 500
    ∧ (Error freshWriter "token acquisition failed" StatusInternalServerError).body
        = "token acquisition failed\n" := by
  decide

theorem Error_request :
    (Error freshWriter "bad upstream request" StatusInternalServerError).status
        = some 500 := by
  decide

theorem Error_upstream :
    (Error freshWriter "upstream error" StatusBadGateway).status = some 502 := by
  decide

open Header in
/-- The header map of the outbound request, key by key. -/
theorem upstream_header_values (h : Header) (hw : WellFormed h) (tok k : String) :
    values (((copyHeaders [] ((h.Del "api-key").Del "x-api-key"))).Set "Authorization"
        ("Bearer " ++ tok)) k
      = if k = "Authorization" then ["Bearer " ++ tok]
        else if excludedKey k then []
        else if k = "X-Api-Key" ∨ k = "Api-Key" then [] else values h k := by
  have hw2 : WellFormed ((h.Del "api-key").Del "x-api-key") :=
    wellFormed_Del _ _ (wellFormed_Del _ _ hw)
  have c1 : CanonicalMIMEHeaderKey "Authorization" = "Authorization" := by decide
  have c2 : CanonicalMIMEHeaderKey "api-key" = "Api-Key" := by decide
  have c3 : CanonicalMIMEHeaderKey "x-api-key" = "X-Api-Key" := by decide
  rw [values_Set, c1, copyHeaders_values _ _ hw2, values_Del, values_Del, c2, c3]
  by_cases h1 : k = "Authorization"
  · simp [h1]
  · simp only [h1, if_false]
    cases excludedKey k
    · by_cases h2 : k = "X-Api-Key"
      · simp [h2, values]
      · by_cases h3 : k = "Api-Key"
        · simp [h3, values]
        · simp [h2, h3, values]
    · simp [values]

open Header in
/-- The keys of the header map of the outbound request. -/
theorem upstream_header_keys (h : Header) (hw : WellFormed h) (tok k : String) :
    k ∈ keys (((copyHeaders [] ((h.Del "api-key").Del "x-api-key"))).Set "Authorization"
        ("Bearer " ++ tok))
      ↔ k = "Authorization"
        ∨ (excludedKey k = false ∧ k ≠ "X-Api-Key" ∧ k ≠ "Api-Key" ∧ values h k ≠ []) := by
  have hw2 : WellFormed ((h.Del "api-key").Del "x-api-key") :=
    wellFormed_Del _ _ (wellFormed_Del _ _ hw)
  have c1 : CanonicalMIMEHeaderKey "Authorization" = "Authorization" := by decide
  have c2 : CanonicalMIMEHeaderKey "api-key" = "Api-Key" := by decide
  have c3 : CanonicalMIMEHeaderKey "x-api-key" = "X-Api-Key" := by decide
  rw [mem_keys_Set, c1, copyHeaders_keys _ _ hw2, values_Del, values_Del, c2, c3]
  by_cases h2 : k = "X-Api-Key"
  · simp [h2, keys]
  · by_cases h3 : k = "Api-Key"
    · simp [h3, keys]
    · simp [h2, h3, keys]

/-- What the handler does once a request has been passed to the transport. -/
theorem handler_sent {ε : Type} (g : Globals) (env : Env ε) (w : ResponseWriter)
    (r : Request) (upReq : Request) (h : upReq ∈ (handler g env w r).upCalls) :
    (handler g env w r).w
      = match env.send upReq with
        | .error _ => Error w "upstream error" StatusBadGateway
        | .ok resp =>
          Copy (ResponseWriter.WriteHeader
            { w with header := copyHeaders w.header resp.Header } resp.StatusCode)
            resp.Body := by
  obtain ⟨_, hA, hT, hB⟩ := mem_upCalls g env w r upReq h
  rw [handler_pass g env w r hA]
  simp only [hT, hB]
  cases env.send upReq <;> rfl

theorem handler_token_failed {ε : Type} (g : Globals) (env : Env ε) (w : ResponseWriter)
    (r : Request) (hA : ¬ authRejects g.expectKey r.Header) (e : ε)
    (he : (getToken g.scope g.tokenCache env.now env.cred).err = some e) :
    handler g env w r
      = { w := Error w "token acquisition failed" StatusInternalServerError,
          globals := { g with
            tokenCache := (getToken g.scope g.tokenCache env.now env.cred).cache },
          credCalls := (getToken g.scope g.tokenCache env.now env.cred).credCalls,
          upCalls := [] } := by
  rw [handler_pass g env w r hA]
  simp only [he]

/-- The request passed to the transport: its method, body and header map, and where its
URL comes from. -/
theorem upCalls_eq {ε : Type} (g : Globals) (env : Env ε) (w : ResponseWriter)
    (r : Request) (upReq : Request) (h : upReq ∈ (handler g env w r).upCalls) :
    upReq.Method = (if r.Method = "" then "GET" else r.Method)
    ∧ upReq.Body = r.Body
    ∧ upReq.Header = (copyHeaders [] ((r.Header.Del "api-key").Del "x-api-key")).Set
        "Authorization" ("Bearer " ++ (getToken g.scope g.tokenCache env.now env.cred).tok)
    ∧ env.newRequestURL (if r.Method = "" then "GET" else r.Method)
        { g.target with
          Path := singleJoiningSlash g.target.Path r.URL.Path,
          RawQuery := r.URL.RawQuery } = .ok upReq.URL := by
  obtain ⟨_, _, _, hB⟩ := mem_upCalls g env w r upReq h
  exact buildUpstream_ok _ env (stripKeys r) _ upReq hB

theorem handler_target {ε : Type} (g : Globals) (env : Env ε) (w : ResponseWriter)
    (r : Request) : (handler g env w r).globals.target = g.target := by
  by_cases hA : authRejects g.expectKey r.Header
  · rw [handler_reject g env w r hA]
  · rw [handler_pass g env w r hA]
    split
    · rfl
    · split
      · rfl
      · split <;> rfl

theorem handler_credCalls {ε : Type} (g : Globals) (env : Env ε) (w : ResponseWriter)
    (r : Request) :
    (handler g env w r).credCalls = []
    ∨ (handler g env w r).credCalls
        = (getToken g.scope g.tokenCache env.now env.cred).credCalls := by
  by_cases hA : authRejects g.expectKey r.Header
  · rw [handler_reject g env w r hA]
    exact Or.inl rfl
  · rw [handler_pass g env w r hA]
    right
    split
    · rfl
    · split
      · rfl
      · split <;> rfl

theorem handler_upCalls_length {ε : Type} (g : Globals) (env : Env ε) (w : ResponseWriter)
    (r : Request) : (handler g env w r).upCalls.length ≤ 1 := by
  cases hu : (handler g env w r).upCalls with
  | nil => simp
  | cons a l =>
    have ha : a ∈ (handler g env w r).upCalls := by
      rw [hu]
      exact List.mem_cons_self a l
    have h1 := (mem_upCalls g env w r a ha).1
    rw [hu] at h1
    rw [h1]
    simp

/-! ## Claims -/

/-- C6. Single-slash joining: for all strings `a` and `b`, `singleJoiningSlash a b` is
`a` without one trailing `/` (if any), then `/`, then `b` without one leading `/` (if any);
the four forms of the example all give `/v1/chat`; and unless `a` ends in `//` the left
part does not end in `/`, unless `b` begins with `//` the right part does not begin with
`/`, so that exactly one `/` stands at the junction. -/
theorem singleJoiningSlash_single_slash (a b : String) :
    singleJoiningSlash a b = trimOneTrailingSlash a ++ "/" ++ trimOneLeadingSlash b
    ∧ (singleJoiningSlash "/v1/" "/chat" = "/v1/chat"
        ∧ singleJoiningSlash "/v1" "chat" = "/v1/chat"
        ∧ singleJoiningSlash "/v1" "/chat" = "/v1/chat"
        ∧ singleJoiningSlash "/v1/" "chat" = "/v1/chat")
    ∧ (HasSuffix a "//" = true ∨ HasSuffix (trimOneTrailingSlash a) "/" = false)
    ∧ (HasPrefix b "//" = true ∨ HasPrefix (trimOneLeadingSlash b) "/" = false) :=
  ⟨singleJoiningSlash_eq_trim a b, ⟨by decide, by decide, by decide, by decide⟩,
    trimOneTrailingSlash_junction a, trimOneLeadingSlash_junction b⟩

/-- C2. Cache hit: with a cached token `{val, exp}` and `now < exp - 1 minute` (strictly),
`getToken` returns `val` and no error, makes no call to the credential provider and leaves
the cache as it was. -/
theorem getToken_cache_hit {ε : Type} (scope val : String) (exp now : Int)
    (cred : Credential ε) (h : now < exp - Minute) :
    (getToken scope (some { val := val, exp := exp }) now cred).tok = val
    ∧ (getToken scope (some { val := val, exp := exp }) now cred).err = none
    ∧ (getToken scope (some { val := val, exp := exp }) now cred).credCalls = []
    ∧ (getToken scope (some { val := val, exp := exp }) now cred).cache
        = some { val := val, exp := exp } := by
  rw [getToken_hit scope { val := val, exp := exp } now cred h]
  exact ⟨rfl, rfl, rfl, rfl⟩

theorem getToken_cache_hit_witness :
    (0 : Int) < 120000000000 - Minute
    ∧ ((getToken "sc" (some { val := "old", exp := 120000000000 }) 0 failingCred).tok = "old"
      ∧ (getToken "sc" (some { val := "old", exp := 120000000000 }) 0 failingCred).err = none
      ∧ (getToken "sc" (some { val := "old", exp := 120000000000 }) 0 failingCred).credCalls
          = []
      ∧ (getToken "sc" (some { val := "old", exp := 120000000000 }) 0 failingCred).cache
          = some { val := "old", exp := 120000000000 }) :=
  ⟨by decide, getToken_cache_hit "sc" "old" 120000000000 0 failingCred (by decide)⟩

/-- C3. Cache miss: when the cache is empty or holds `{val, exp}` with
`now >= exp - 1 minute` (equality included), `getToken` calls the provider exactly once,
with the configured scope; if the provider answers `(token, expiresOn)`, `getToken`
returns `token` without error and the cache then holds exactly `{token, expiresOn}`. -/
theorem getToken_cache_miss {ε : Type} (scope : String) (tokenCache : Option cachedToken)
    (now : Int) (cred : Credential ε)
    (h : tokenCache = none
      ∨ ∃ val exp, tokenCache = some { val := val, exp := exp } ∧ exp - Minute ≤ now) :
    (getToken scope tokenCache now cred).credCalls = [[scope]]
    ∧ ∀ token expiresOn, cred [scope] = .ok { Token := token, ExpiresOn := expiresOn } →
        (getToken scope tokenCache now cred).tok = token
        ∧ (getToken scope tokenCache now cred).err = none
        ∧ (getToken scope tokenCache now cred).cache
            = some { val := token, exp := expiresOn } := by
  have hm : ∀ t, tokenCache = some t → t.exp - Minute ≤ now := by
    intro t ht
    rcases h with h | ⟨val, exp, h, hle⟩
    · rw [h] at ht
      cases ht
    · rw [h] at ht
      cases ht
      exact hle
  rw [getToken_miss scope tokenCache now cred hm]
  constructor
  · cases cred [scope] <;> rfl
  · intro token expiresOn hok
    rw [hok]
    exact ⟨rfl, rfl, rfl⟩

theorem getToken_cache_miss_witness :
    ((some oldToken = none
      ∨ ∃ val exp, some oldToken = some { val := val, exp := exp }
          ∧ exp - Minute ≤ 60000000000))
    ∧ (getToken "sc" (some oldToken) 60000000000 okCred).credCalls = [["sc"]]
    ∧ (getToken "sc" (some oldToken) 60000000000 okCred).tok = "T1"
    ∧ (getToken "sc" (some oldToken) 60000000000 okCred).err = none
    ∧ (getToken "sc" (some oldToken) 60000000000 okCred).cache
        = some { val := "T1", exp := 3600000000000 } :=
  have h : (some oldToken = none
      ∨ ∃ val exp, some oldToken = some { val := val, exp := exp }
          ∧ exp - Minute ≤ 60000000000) :=
    Or.inr ⟨"old", 120000000000, rfl, by decide⟩
  ⟨h, (getToken_cache_miss "sc" (some oldToken) 60000000000 okCred h).1,
    (getToken_cache_miss "sc" (some oldToken) 60000000000 okCred h).2 "T1" 3600000000000 rfl⟩

/-- C4. Failed refresh is non-destructive: whatever the cache holds, when `getToken`
calls the provider and the provider returns the error `e`, `getToken` returns the empty
string with exactly `e`, and the cache after the call is the cache before it. -/
theorem getToken_failed_refresh {ε : Type} (scope : String)
    (tokenCache : Option cachedToken) (now : Int) (cred : Credential ε) (e : ε)
    (hcall : (getToken scope tokenCache now cred).credCalls ≠ [])
    (herr : cred [scope] = .error e) :
    (getToken scope tokenCache now cred).tok = ""
    ∧ (getToken scope tokenCache now cred).err = some e
    ∧ (getToken scope tokenCache now cred).cache = tokenCache := by
  have hm := getToken_calls_imp_miss scope tokenCache now cred hcall
  rw [getToken_miss scope tokenCache now cred hm, herr]
  exact ⟨rfl, rfl, rfl⟩

theorem getToken_failed_refresh_witness :
    (getToken "sc" (some oldToken) 100000000000 failingCred).credCalls ≠ []
    ∧ failingCred ["sc"] = .error "identity unavailable"
    ∧ (getToken "sc" (some oldToken) 100000000000 failingCred).tok = ""
    ∧ (getToken "sc" (some oldToken) 100000000000 failingCred).err
        = some "identity unavailable"
    ∧ (getToken "sc" (some oldToken) 100000000000 failingCred).cache = some oldToken :=
  ⟨by decide, rfl,
    getToken_failed_refresh "sc" (some oldToken) 100000000000 failingCred
      "identity unavailable" (by decide) rfl⟩

/-- C5, as stated, fails: the token `old` expires at second 120; the call at second 100
attempts a refresh, which fails; the next call, at second 110 and so before the expiry,
attempts a refresh again and, the provider failing again, returns the empty string and
the error instead of `old`. -/
theorem getToken_old_value_counterexample :
    (getToken "sc" (some oldToken) 100000000000 failingCred).credCalls = [["sc"]]
    ∧ (getToken "sc" (some oldToken) 100000000000 failingCred).err
        = some "identity unavailable"
    ∧ (100000000000 : Int) ≤ 110000000000
    ∧ (110000000000 : Int) < oldToken.exp
    ∧ (getToken "sc" (getToken "sc" (some oldToken) 100000000000 failingCred).cache
        110000000000 failingCred).tok ≠ oldToken.val
    ∧ (getToken "sc" (getToken "sc" (some oldToken) 100000000000 failingCred).cache
        110000000000 failingCred).err = some "identity unavailable" := by
  decide

/-- C5, as amended. After a refresh attempted at `t1` on the entry `{val, exp}` has
failed, `exp - 1 minute <= t1` and the cache still holds `{val, exp}`, but `val` is not
served from it again: in every run of subsequent calls at times `>= t1` whose refreshes
all fail, each call invokes the provider once and returns the empty string with an error,
and the cache still holds `{val, exp}` afterwards; the call that follows such a run at
a time `t2 >= t1` invokes the provider once and returns the provider's result, the empty
string and its error on failure, its token (which replaces the entry) on success. -/
theorem getToken_after_failed_refresh {ε : Type} (scope val : String) (exp t1 t2 : Int)
    (cred1 cred2 : Credential ε) (e1 : ε) (calls : List (Int × Credential ε))
    (hcall : (getToken scope (some { val := val, exp := exp }) t1 cred1).credCalls ≠ [])
    (herr : cred1 [scope] = .error e1)
    (hcalls : ∀ call ∈ calls, t1 ≤ call.1 ∧ ∃ e, call.2 [scope] = .error e)
    (ht2 : t1 ≤ t2) :
    exp - Minute ≤ t1
    ∧ (getToken scope (some { val := val, exp := exp }) t1 cred1).cache
        = some { val := val, exp := exp }
    ∧ (∀ o ∈ getTokenSeq scope (some { val := val, exp := exp }) calls,
        o.tok = "" ∧ o.err ≠ none ∧ o.credCalls = [[scope]]
        ∧ o.cache = some { val := val, exp := exp })
    ∧ cacheAfter scope (some { val := val, exp := exp }) calls
        = some { val := val, exp := exp }
    ∧ (getToken scope (cacheAfter scope (some { val := val, exp := exp }) calls)
        t2 cred2).credCalls = [[scope]]
    ∧ (∀ e2, cred2 [scope] = .error e2 →
        (getToken scope (cacheAfter scope (some { val := val, exp := exp }) calls)
          t2 cred2).tok = ""
        ∧ (getToken scope (cacheAfter scope (some { val := val, exp := exp }) calls)
          t2 cred2).err = some e2
        ∧ (getToken scope (cacheAfter scope (some { val := val, exp := exp }) calls)
          t2 cred2).cache = some { val := val, exp := exp })
    ∧ (∀ tk, cred2 [scope] = .ok tk →
        (getToken scope (cacheAfter scope (some { val := val, exp := exp }) calls)
          t2 cred2).tok = tk.Token
        ∧ (getToken scope (cacheAfter scope (some { val := val, exp := exp }) calls)
          t2 cred2).err = none
        ∧ (getToken scope (cacheAfter scope (some { val := val, exp := exp }) calls)
          t2 cred2).cache = some { val := tk.Token, exp := tk.ExpiresOn }) := by
  have hm := getToken_calls_imp_miss scope _ t1 cred1 hcall
  have hexp : exp - Minute ≤ t1 := hm { val := val, exp := exp } rfl
  have hc : (getToken scope (some { val := val, exp := exp }) t1 cred1).cache
      = some { val := val, exp := exp } := by
    rw [getToken_miss scope _ t1 cred1 hm, herr]
  have hrun := failing_run scope { val := val, exp := exp } t1 calls hexp hcalls
  have hm2 : ∀ t, some ({ val := val, exp := exp } : cachedToken) = some t →
      t.exp - Minute ≤ t2 := by
    intro t ht
    cases ht
    exact le_trans hexp ht2
  refine ⟨hexp, hc, hrun.1, hrun.2, ?_, ?_, ?_⟩
  · rw [hrun.2, getToken_miss scope _ t2 cred2 hm2]
    cases cred2 [scope] <;> rfl
  · intro e2 h2
    rw [hrun.2, getToken_miss scope _ t2 cred2 hm2, h2]
    exact ⟨rfl, rfl, rfl⟩
  · intro tk h2
    rw [hrun.2, getToken_miss scope _ t2 cred2 hm2, h2]
    exact ⟨rfl, rfl, rfl⟩

theorem getToken_after_failed_refresh_witness :
    (getToken "sc" (some { val := "old", exp := 120000000000 }) 100000000000
        failingCred).credCalls ≠ []
    ∧ failingCred ["sc"] = .error "identity unavailable"
    ∧ (∀ call ∈ [((105000000000 : Int), failingCred), (110000000000, failingCred)],
        (100000000000 : Int) ≤ call.1 ∧ ∃ e, call.2 ["sc"] = .error e)
    ∧ (100000000000 : Int) ≤ 115000000000
    ∧ (getTokenSeq "sc" (some { val := "old", exp := 120000000000 })
        [((105000000000 : Int), failingCred), (110000000000, failingCred)]).length = 2
    ∧ (∀ o ∈ getTokenSeq "sc" (some { val := "old", exp := 120000000000 })
          [((105000000000 : Int), failingCred), (110000000000, failingCred)],
        o.tok = "" ∧ o.err ≠ none ∧ o.credCalls = [["sc"]]
        ∧ o.cache = some { val := "old", exp := 120000000000 })
    ∧ (getToken "sc" (cacheAfter "sc" (some { val := "old", exp := 120000000000 })
          [((105000000000 : Int), failingCred), (110000000000, failingCred)])
        115000000000 okCred).tok = "T1" :=
  have hc : ∀ call ∈ [((105000000000 : Int), failingCred), (110000000000, failingCred)],
      (100000000000 : Int) ≤ call.1 ∧ ∃ e, call.2 ["sc"] = .error e := by
    intro call hmem
    simp only [List.mem_cons, List.mem_singleton, List.not_mem_nil, or_false] at hmem
    rcases hmem with h | h
    · rw [h]
      exact ⟨by decide, "identity unavailable", rfl⟩
    · rw [h]
      exact ⟨by decide, "identity unavailable", rfl⟩
  have h := getToken_after_failed_refresh "sc" "old" 120000000000 100000000000 115000000000
    failingCred okCred "identity unavailable"
    [((105000000000 : Int), failingCred), (110000000000, failingCred)] (by decide) rfl hc
    (by decide)
  ⟨by decide, rfl, hc, by decide, rfl, h.2.2.1,
    (h.2.2.2.2.2.2 { Token := "T1", ExpiresOn := 3600000000000 } rfl).1⟩

/-- C1, as stated, fails: with no shared secret configured the auth step lets the request
through, the upstream answers `401`, and the handler answers `401` after one provider
call and one upstream call. -/
theorem auth_401_counterexample :
    exampleGlobals.expectKey = ""
    ∧ ¬ authRejects exampleGlobals.expectKey keylessRequest.Header
    ∧ (handler exampleGlobals deniedEnv freshWriter keylessRequest).w.status = some 401
    ∧ (handler exampleGlobals deniedEnv freshWriter keylessRequest).credCalls.length = 1
    ∧ (handler exampleGlobals deniedEnv freshWriter keylessRequest).upCalls.length = 1 := by
  decide

/-- C1, as amended. Auth gating: the handler answers `401` without having called the
upstream if and only if `expectKey` is non-empty and neither the first value of
`api-key` nor the first value of `x-api-key` equals it; in that case the credential
provider is not called either and the body is the fixed text; with `expectKey` empty the
auth step never answers `401`. -/
theorem auth_gating {ε : Type} (g : Globals) (env : Env ε) (r : Request) :
    (((handler g env freshWriter r).w.status = some 401
        ∧ (handler g env freshWriter r).upCalls = [])
      ↔ authRejects g.expectKey r.Header)
    ∧ (authRejects g.expectKey r.Header →
        (handler g env freshWriter r).credCalls = []
        ∧ (handler g env freshWriter r).upCalls = []
        ∧ (handler g env freshWriter r).w.body = "unauthorized\n")
    ∧ (g.expectKey = "" →
        ¬ ((handler g env freshWriter r).w.status = some 401
          ∧ (handler g env freshWriter r).upCalls = [])) := by
  have key : ((handler g env freshWriter r).w.status = some 401
        ∧ (handler g env freshWriter r).upCalls = [])
      ↔ authRejects g.expectKey r.Header := by
    constructor
    · intro h
      by_contra hA
      rw [handler_pass g env freshWriter r hA] at h
      split at h
      · rw [Error_token.1] at h
        cases h.1
      · split at h
        · rw [Error_request] at h
          cases h.1
        · split at h
          · exact absurd h.2 (by simp)
          · exact absurd h.2 (by simp)
    · intro hA
      rw [handler_reject g env freshWriter r hA]
      exact ⟨Error_unauthorized.1, rfl⟩
  refine ⟨key, ?_, ?_⟩
  · intro hA
    rw [handler_reject g env freshWriter r hA]
    exact ⟨rfl, rfl, Error_unauthorized.2⟩
  · intro he hc
    exact (key.1 hc).1 he

theorem auth_gating_witness :
    authRejects secretGlobals.expectKey keylessRequest.Header
    ∧ (handler secretGlobals exampleEnv freshWriter keylessRequest).w.status = some 401
    ∧ (handler secretGlobals exampleEnv freshWriter keylessRequest).credCalls = []
    ∧ (handler secretGlobals exampleEnv freshWriter keylessRequest).upCalls = []
    ∧ ¬ authRejects secretGlobals.expectKey exampleRequest.Header
    ∧ (handler secretGlobals exampleEnv freshWriter exampleRequest).w.status = some 200 :=
  have h := auth_gating secretGlobals exampleEnv keylessRequest
  have hA : authRejects secretGlobals.expectKey keylessRequest.Header := by decide
  ⟨hA, (h.1.2 hA).1, (h.2.1 hA).1, (h.2.1 hA).2.1, by decide, by decide⟩

open Header in
/-- C7. Outbound header sanitisation and token injection: for an inbound request whose
header map is well formed (each key once, in canonical form) and the request `upReq`
the handler passes to the transport with the acquired token `tok`: `upReq` has no
`Api-Key` and no `X-Api-Key` key; its `Authorization` values are exactly
`["Bearer " ++ tok]`; none of its keys is `Host` under case folding; every key that is
neither a key header nor excluded by the test of main.go 112 has exactly the inbound
values in the inbound order (and is present when the inbound request has a value for
it); the values do not depend on the order in which the inbound map is visited; and for
an inbound key written in ASCII the keys left out are exactly `Api-Key`, `X-Api-Key`,
`Host` and `Authorization`. -/
theorem outbound_headers {ε : Type} (g : Globals) (env : Env ε) (w : ResponseWriter)
    (r : Request) (upReq : Request) (hw : WellFormed r.Header)
    (hup : upReq ∈ (handler g env w r).upCalls) :
    "Api-Key" ∉ keys upReq.Header
    ∧ "X-Api-Key" ∉ keys upReq.Header
    ∧ values upReq.Header "Authorization"
        = ["Bearer " ++ (getToken g.scope g.tokenCache env.now env.cred).tok]
    ∧ (∀ k ∈ keys upReq.Header, EqualFold k "Host" = false)
    ∧ (∀ k, k ≠ "Api-Key" → k ≠ "X-Api-Key" → excludedKey k = false →
        values upReq.Header k = values r.Header k
        ∧ (values r.Header k ≠ [] → k ∈ keys upReq.Header))
    ∧ (∀ hdr : Header, hdr.Perm r.Header →
        ∀ upReq1 ∈ (handler g env w { r with Header := hdr }).upCalls,
          ∀ k, values upReq1.Header k = values upReq.Header k)
    ∧ (∀ k ∈ keys r.Header, isASCII k →
        k ≠ "Api-Key" → k ≠ "X-Api-Key" → k ≠ "Host" → k ≠ "Authorization" →
        values upReq.Header k = values r.Header k
        ∧ (values r.Header k ≠ [] → k ∈ keys upReq.Header)) := by
  have hH := (upCalls_eq g env w r upReq hup).2.2.1
  have hv := fun k => upstream_header_values r.Header hw
    (getToken g.scope g.tokenCache env.now env.cred).tok k
  have hk := fun k => upstream_header_keys r.Header hw
    (getToken g.scope g.tokenCache env.now env.cred).tok k
  rw [← hH] at hv hk
  have h5 : ∀ k, k ≠ "Api-Key" → k ≠ "X-Api-Key" → excludedKey k = false →
      values upReq.Header k = values r.Header k
      ∧ (values r.Header k ≠ [] → k ∈ keys upReq.Header) := by
    intro k h1 h2 h3
    have h4 : k ≠ "Authorization" := by
      intro h5
      subst h5
      exact absurd h3 (by decide)
    constructor
    · rw [hv]
      simp [h1, h2, h3, h4]
    · intro h5
      exact (hk k).2 (Or.inr ⟨h3, h2, h1, h5⟩)
  refine ⟨?_, ?_, ?_, ?_, h5, ?_, ?_⟩
  · intro h1
    rcases (hk "Api-Key").1 h1 with h2 | ⟨_, _, h2, _⟩
    · exact absurd h2 (by decide)
    · exact h2 rfl
  · intro h1
    rcases (hk "X-Api-Key").1 h1 with h2 | ⟨_, h2, _, _⟩
    · exact absurd h2 (by decide)
    · exact h2 rfl
  · rw [hv]
    simp
  · intro k h1
    rcases (hk k).1 h1 with h2 | ⟨h2, _, _, _⟩
    · subst h2
      decide
    · unfold excludedKey at h2
      rw [Bool.or_eq_false_iff] at h2
      exact h2.1
  · intro hdr hp upReq1 hup1 k
    have hw1 : WellFormed hdr := wellFormed_perm r.Header hdr hw hp
    have hH1 := (upCalls_eq g env w { r with Header := hdr } upReq1 hup1).2.2.1
    rw [hH1, upstream_header_values hdr hw1, hv, values_perm r.Header hdr hw hp]
  · intro k hkm ha h1 h2 h3 h4
    exact h5 k h1 h2 (excludedKey_ascii k (hw.2 k hkm) ha h3 h4)

theorem outbound_headers_witness :
    Header.WellFormed exampleRequest.Header
    ∧ exampleUpstream ∈ (handler secretGlobals exampleEnv freshWriter exampleRequest).upCalls
    ∧ "Api-Key" ∉ Header.keys exampleUpstream.Header
    ∧ "X-Api-Key" ∉ Header.keys exampleUpstream.Header
    ∧ Header.values exampleUpstream.Header "Authorization"
        = ["Bearer " ++ (getToken secretGlobals.scope secretGlobals.tokenCache exampleEnv.now
            exampleEnv.cred).tok]
    ∧ Header.values exampleUpstream.Header "Accept" = ["a", "b"] :=
  have h := outbound_headers secretGlobals exampleEnv freshWriter exampleRequest
    exampleUpstream (by decide) (by decide)
  ⟨by decide, by decide, h.1, h.2.1, h.2.2.1, by decide⟩

/-- C8 at the failing input: target `http://up.local`, inbound `GET /models?a=1#frag`.
The handler sets the raw query `a=1#frag` on its copy of the target and passes the text
`http://up.local/models?a=1#frag`; the request that reaches the transport has the raw
query `a=1` and the fragment `frag`, while the inbound raw query is `a=1#frag`; the
package-level target is untouched. -/
theorem request_rewrite_failing_input :
    fragmentRequest.URL.RawQuery = "a=1#frag"
    ∧ (handler exampleGlobals exampleEnv freshWriter fragmentRequest).upCalls.map
        (fun q => (q.Method, q.URL, q.Body))
      = [("GET", { Scheme := "http", Host := "up.local", Path := "/models",
                   RawQuery := "a=1", Fragment := "frag" }, "")]
    ∧ (handler exampleGlobals exampleEnv freshWriter fragmentRequest).upCalls.map
        (fun q => q.URL.RawQuery) ≠ [fragmentRequest.URL.RawQuery]
    ∧ (handler exampleGlobals exampleEnv freshWriter fragmentRequest).globals.target
      = exampleGlobals.target := by
  decide

/-- C9. Terminal failure mapping with no retries: for a request that passes the auth
step, if token acquisition fails with an error `e` the handler answers `500` with the
fixed text, the same for every `e`, and passes nothing to the transport; if the token is
acquired and the transport fails on the request it is passed, the handler answers `502`;
and in every run the provider is called at most once and the transport at most once. -/
theorem failure_mapping {ε : Type} (g : Globals) (env : Env ε) (r : Request) :
    (¬ authRejects g.expectKey r.Header →
      (∀ e, (getToken g.scope g.tokenCache env.now env.cred).err = some e →
        (handler g env freshWriter r).w
            = Error freshWriter "token acquisition failed" StatusInternalServerError
        ∧ (handler g env freshWriter r).w.status = some 500
        ∧ (handler g env freshWriter r).w.body = "token acquisition failed\n"
        ∧ (handler g env freshWriter r).upCalls = [])
      ∧ ((getToken g.scope g.tokenCache env.now env.cred).err = none →
          ∀ upReq ∈ (handler g env freshWriter r).upCalls,
            ∀ e, env.send upReq = .error e →
              (handler g env freshWriter r).w.status = some 502))
    ∧ (handler g env freshWriter r).credCalls.length ≤ 1
    ∧ (handler g env freshWriter r).upCalls.length ≤ 1 := by
  refine ⟨?_, ?_, handler_upCalls_length g env freshWriter r⟩
  · intro hA
    constructor
    · intro e he
      rw [handler_token_failed g env freshWriter r hA e he]
      exact ⟨rfl, Error_token.1, Error_token.2, rfl⟩
    · intro _ upReq hup e he
      rw [handler_sent g env freshWriter r upReq hup, he]
      exact Error_upstream
  · rcases handler_credCalls g env freshWriter r with h | h
    · rw [h]
      simp
    · rw [h]
      exact getToken_credCalls_length _ _ _ _

theorem failure_mapping_witness :
    ¬ authRejects exampleGlobals.expectKey exampleRequest.Header
    ∧ (getToken exampleGlobals.scope exampleGlobals.tokenCache noTokenEnv.now
        noTokenEnv.cred).err = some "identity unavailable"
    ∧ (handler exampleGlobals noTokenEnv freshWriter exampleRequest).w.status = some 500
    ∧ (handler exampleGlobals noTokenEnv freshWriter exampleRequest).w.body
        = "token acquisition failed\n"
    ∧ (handler exampleGlobals noTokenEnv freshWriter exampleRequest).upCalls = []
    ∧ exampleUpstream ∈ (handler exampleGlobals downEnv freshWriter exampleRequest).upCalls
    ∧ (handler exampleGlobals downEnv freshWriter exampleRequest).w.status = some 502 :=
  have hA : ¬ authRejects exampleGlobals.expectKey exampleRequest.Header := by decide
  have h1 := ((failure_mapping exampleGlobals noTokenEnv exampleRequest).1 hA).1
    "identity unavailable" rfl
  have h2 := ((failure_mapping exampleGlobals downEnv exampleRequest).1 hA).2 rfl
    exampleUpstream (by decide) "connection refused" rfl
  ⟨hA, rfl, h1.2.1, h1.2.2.1, h1.2.2.2, by decide, h2⟩

/-- C10, as stated, fails: an upstream status 42 makes `WriteHeader` panic, so that no
status and no body are written; and with an upstream status 101 the status is relayed
but the byte that follows is refused. -/
theorem response_relay_counterexample :
    (exampleUpstream
        ∈ (handler exampleGlobals badStatusEnv freshWriter exampleRequest).upCalls
      ∧ badStatusEnv.send exampleUpstream = .ok badStatusResponse
      ∧ (handler exampleGlobals badStatusEnv freshWriter exampleRequest).w.status
          ≠ some badStatusResponse.StatusCode
      ∧ (handler exampleGlobals badStatusEnv freshWriter exampleRequest).w.body
          ≠ badStatusResponse.Body)
    ∧ (exampleUpstream
        ∈ (handler exampleGlobals upgradeEnv freshWriter exampleRequest).upCalls
      ∧ upgradeEnv.send exampleUpstream = .ok upgradeResponse
      ∧ (handler exampleGlobals upgradeEnv freshWriter exampleRequest).w.status = some 101
      ∧ (handler exampleGlobals upgradeEnv freshWriter exampleRequest).w.body
          ≠ upgradeResponse.Body) :=
  ⟨⟨by decide, rfl, by decide, by decide⟩, by decide, rfl, by decide, by decide⟩

open Header in
/-- C10, as amended. Faithful response relay: when the transport answers the request it
is passed with a response `resp` whose header map is well formed and whose status code
is 101 or lies between 200 and 999 (4xx and 5xx included), the client response, started
from an empty header map, has status exactly `resp.StatusCode`, under every key that is
not `Host` or `Authorization` under case folding exactly the upstream values in the same
order, and no other keys (for an upstream key written in ASCII the keys left out are
exactly `Host` and `Authorization`); its body is the upstream body when the status
allows a body or the upstream body is empty, and stays empty when the status (101, 204,
304) allows none.  With a status code below 100 or above 999 `WriteHeader` panics and
neither status nor body is written. -/
theorem response_relay {ε : Type} (g : Globals) (env : Env ε) (r : Request)
    (upReq : Request) (resp : Response) (hw : WellFormed resp.Header)
    (hup : upReq ∈ (handler g env freshWriter r).upCalls)
    (hok : env.send upReq = .ok resp) :
    (resp.StatusCode = 101 ∨ (200 ≤ resp.StatusCode ∧ resp.StatusCode ≤ 999) →
      (handler g env freshWriter r).w.status = some resp.StatusCode
      ∧ (∀ k, values (handler g env freshWriter r).w.header k
          = if excludedKey k then [] else values resp.Header k)
      ∧ (∀ k, k ∈ keys (handler g env freshWriter r).w.header
          ↔ excludedKey k = false ∧ values resp.Header k ≠ [])
      ∧ (∀ k ∈ keys resp.Header, isASCII k → k ≠ "Host" → k ≠ "Authorization" →
          values (handler g env freshWriter r).w.header k = values resp.Header k)
      ∧ (bodyAllowedForStatus resp.StatusCode = true ∨ resp.Body = "" →
          (handler g env freshWriter r).w.body = resp.Body)
      ∧ (bodyAllowedForStatus resp.StatusCode = false →
          (handler g env freshWriter r).w.body = ""))
    ∧ (resp.StatusCode < 100 ∨ resp.StatusCode > 999 →
        (handler g env freshWriter r).w.status = none
        ∧ (handler g env freshWriter r).w.body = ""
        ∧ (handler g env freshWriter r).w.panicked = true) := by
  rw [handler_sent g env freshWriter r upReq hup, hok]
  constructor
  · intro hv
    have h1 := WriteHeader_final
      { freshWriter with header := copyHeaders freshWriter.header resp.Header }
      resp.StatusCode rfl rfl hv
    have h2 := Copy_written
      ({ freshWriter with header := copyHeaders freshWriter.header resp.Header,
                          status := some resp.StatusCode } : ResponseWriter)
      resp.Body resp.StatusCode rfl rfl
    simp only [h1, h2]
    have hhdr : ∀ w1 : ResponseWriter,
        w1 = (if resp.Body = "" then
            ({ freshWriter with header := copyHeaders freshWriter.header resp.Header,
                                status := some resp.StatusCode } : ResponseWriter)
          else if bodyAllowedForStatus resp.StatusCode = true then
            { header := copyHeaders freshWriter.header resp.Header,
              status := some resp.StatusCode, body := freshWriter.body ++ resp.Body,
              interim := freshWriter.interim, panicked := freshWriter.panicked }
          else { freshWriter with header := copyHeaders freshWriter.header resp.Header,
                                  status := some resp.StatusCode }) →
        w1.header = copyHeaders [] resp.Header ∧ w1.status = some resp.StatusCode
        ∧ (bodyAllowedForStatus resp.StatusCode = true ∨ resp.Body = "" →
            w1.body = resp.Body)
        ∧ (bodyAllowedForStatus resp.StatusCode = false → w1.body = "") := by
      intro w1 hw1
      by_cases hb : resp.Body = ""
      · rw [if_pos hb] at hw1
        rw [hw1, hb]
        exact ⟨rfl, rfl, fun _ => rfl, fun _ => rfl⟩
      · rw [if_neg hb] at hw1
        by_cases ha : bodyAllowedForStatus resp.StatusCode = true
        · rw [if_pos ha] at hw1
          rw [hw1]
          refine ⟨rfl, rfl, fun _ => String.empty_append _, ?_⟩
          intro hf
          rw [ha] at hf
          cases hf
        · rw [if_neg ha] at hw1
          rw [hw1]
          refine ⟨rfl, rfl, ?_, fun _ => rfl⟩
          rintro (h | h)
          · exact absurd h ha
          · exact absurd h hb
    obtain ⟨e1, e2, e3, e4⟩ := hhdr _ rfl
    refine ⟨e2, ?_, ?_, ?_, e3, e4⟩
    · intro k
      rw [e1, copyHeaders_values _ _ hw]
      simp [values]
    · intro k
      rw [e1, copyHeaders_keys _ _ hw]
      simp [keys]
    · intro k hkm ha h1 h2
      rw [e1, copyHeaders_values _ _ hw, excludedKey_ascii k (hw.2 k hkm) ha h1 h2]
      simp [values]
  · intro hv
    have h1 := WriteHeader_panic
      { freshWriter with header := copyHeaders freshWriter.header resp.Header }
      resp.StatusCode rfl rfl hv
    simp only [h1]
    rw [Copy_panicked _ _ rfl]
    exact ⟨rfl, rfl, rfl⟩

theorem response_relay_witness :
    Header.WellFormed exampleResponse.Header
    ∧ exampleUpstream ∈ (handler exampleGlobals exampleEnv freshWriter exampleRequest).upCalls
    ∧ exampleEnv.send exampleUpstream = .ok exampleResponse
    ∧ (handler exampleGlobals exampleEnv freshWriter exampleRequest).w.status = some 200
    ∧ (handler exampleGlobals exampleEnv freshWriter exampleRequest).w.body
        = "\x7b\"ok\":true\x7d"
    ∧ (handler exampleGlobals exampleEnv freshWriter exampleRequest).w.header
        = [("Content-Type", ["application/json"])] :=
  have h := (response_relay exampleGlobals exampleEnv exampleRequest exampleUpstream
    exampleResponse (by decide) (by decide) rfl).1 (by decide)
  ⟨by decide, by decide, rfl, h.1, h.2.2.2.2.1 (by decide), by decide⟩

end Proxy
